import Mathlib

/-!
Verification of the laraveldoc repository's specification against its source.

Part 1 embeds the soft-delete timestamp adapter `DeletedAt`, the one piece of
executable logic in the repository.  It exists twice: once in `src/database.go`
(namespace `DatabaseRoot` below) and once in `src/database/database.go`
(namespace `DatabasePkg` below).  Go's `time.Time` is modelled by `GoTime`
(UTC instants at whole-second precision; sub-second precision and non-UTC
offsets are irrelevant to every claim treated here), and the external Go
library functions `time.Parse`, `time.Time.MarshalJSON` and JSON
unmarshalling of a `time.Time` are modelled by executable parsers and
formatters for the exact layout strings appearing in the source.

Part 2 (further below) models the IoC container, for which the repository
contains only interface declarations; those definitions are modelled from the
spec, as their doc comments state.
-/

namespace LaravelDoc

/-- Model of Go `time.Time` restricted to what the repository's code can
observe: a UTC calendar instant at whole-second precision. -/
structure GoTime where
  year : Nat
  month : Nat
  day : Nat
  hour : Nat
  minute : Nat
  second : Nat
deriving DecidableEq, Repr

/-- Go's zero `time.Time`: January 1, year 1, 00:00:00 UTC. -/
def GoTime.zero : GoTime := ⟨1, 1, 1, 0, 0, 0⟩

/-- Well-formedness invariant every Go `time.Time` maintains for its clock
fields (months 1-12, days 1-31, hour below 24, minute and second below 60). -/
def GoTime.WF (t : GoTime) : Prop :=
  1 ≤ t.month ∧ t.month ≤ 12 ∧ 1 ≤ t.day ∧ t.day ≤ 31 ∧
    t.hour < 24 ∧ t.minute < 60 ∧ t.second < 60

instance (t : GoTime) : Decidable t.WF := by
  unfold GoTime.WF; infer_instance

/-- The character for a single decimal digit. -/
def digitChar (d : Nat) : Char := Char.ofNat (48 + d)

/-- Read back a single decimal digit character. -/
def charDigit (ch : Char) : Option Nat :=
  if 48 ≤ ch.toNat ∧ ch.toNat ≤ 57 then some (ch.toNat - 48) else none

/-- Two-digit zero-padded decimal rendering, as Go layouts `01`/`02`/`15`/`04`/`05`. -/
def pad2 (n : Nat) : List Char := [digitChar (n / 10 % 10), digitChar (n % 10)]

/-- Four-digit zero-padded decimal rendering, as the Go layout `2006`. -/
def pad4 (n : Nat) : List Char :=
  [digitChar (n / 1000 % 10), digitChar (n / 100 % 10),
    digitChar (n / 10 % 10), digitChar (n % 10)]

/-- Consume exactly two decimal digits. -/
def parse2 : List Char → Option (Nat × List Char)
  | a :: b :: rest =>
    match charDigit a, charDigit b with
    | some x, some y => some (10 * x + y, rest)
    | _, _ => none
  | _ => none

/-- Consume exactly four decimal digits. -/
def parse4 : List Char → Option (Nat × List Char)
  | a :: b :: c :: d :: rest =>
    match charDigit a, charDigit b, charDigit c, charDigit d with
    | some x, some y, some z, some w => some (1000 * x + 100 * y + 10 * z + w, rest)
    | _, _, _, _ => none
  | _ => none

/-- Consume one expected literal character. -/
def expectChar (ch : Char) : List Char → Option (List Char)
  | c :: rest => if c = ch then some rest else none
  | [] => none

/-- RFC3339 rendering `YYYY-MM-DDTHH:MM:SSZ` of a `GoTime`, the form Go's
`time.Time.MarshalJSON` emits for a UTC time with no sub-second part. -/
def fmtRFC3339 (t : GoTime) : List Char :=
  pad4 t.year ++ '-' :: pad2 t.month ++ '-' :: pad2 t.day ++
    'T' :: pad2 t.hour ++ ':' :: pad2 t.minute ++ ':' :: pad2 t.second ++ ['Z']

/-- Parser for the RFC3339 body `YYYY-MM-DDTHH:MM:SSZ`, returning the
remaining input.  Models Go's `time.Parse` with layout `time.RFC3339`
restricted to the UTC/whole-second form that `fmtRFC3339` produces. -/
def parseRFC3339Core (l : List Char) : Option (GoTime × List Char) := do
  let (y, l) ← parse4 l
  let l ← expectChar '-' l
  let (mo, l) ← parse2 l
  let l ← expectChar '-' l
  let (d, l) ← parse2 l
  let l ← expectChar 'T' l
  let (h, l) ← parse2 l
  let l ← expectChar ':' l
  let (mi, l) ← parse2 l
  let l ← expectChar ':' l
  let (s, l) ← parse2 l
  let l ← expectChar 'Z' l
  pure (⟨y, mo, d, h, mi, s⟩, l)

/-- Parser for the Go layout `2006-01-02 15:04:05` used by the string case of
`DeletedAt.Scan` in `src/database.go`.  Models Go's `time.Parse` for that
layout. -/
def parseDateTimeCore (l : List Char) : Option (GoTime × List Char) := do
  let (y, l) ← parse4 l
  let l ← expectChar '-' l
  let (mo, l) ← parse2 l
  let l ← expectChar '-' l
  let (d, l) ← parse2 l
  let l ← expectChar ' ' l
  let (h, l) ← parse2 l
  let l ← expectChar ':' l
  let (mi, l) ← parse2 l
  let l ← expectChar ':' l
  let (s, l) ← parse2 l
  pure (⟨y, mo, d, h, mi, s⟩, l)

/-- Model of `time.Parse("2006-01-02 15:04:05", s)`: the whole string must be
consumed. -/
def timeParseDateTime (s : String) : Option GoTime :=
  match parseDateTimeCore s.data with
  | some (t, []) => some t
  | _ => none

/-- Model of `time.Parse(time.RFC3339, s)`: the whole string must be consumed. -/
def timeParseRFC3339 (s : String) : Option GoTime :=
  match parseRFC3339Core s.data with
  | some (t, []) => some t
  | _ => none

/-- Model of `time.Time.MarshalJSON` (equally of `json.Marshal` applied to a
`time.Time`): a quoted RFC3339 string, failing when the year does not fit in
four digits. -/
def marshalTimeJSON (t : GoTime) : Option String :=
  if t.year < 10000 then some (String.mk ('"' :: fmtRFC3339 t ++ ['"'])) else none

/-- Model of JSON unmarshalling into a `time.Time` (both via `json.Unmarshal`
and via `time.Time.UnmarshalJSON`, which accept the same quoted RFC3339
inputs): the data must be a quoted RFC3339 string. -/
def unmarshalTimeJSON (s : String) : Option GoTime :=
  match s.data with
  | '"' :: rest =>
    match parseRFC3339Core rest with
    | some (t, ['"']) => some t
    | _ => none
  | _ => none

/-- The Go layout constant used by `src/database.go`. -/
def layoutDateTime : String := "2006-01-02 15:04:05"

/-- The value of the Go constant `time.RFC3339` used by `src/database/database.go`. -/
def layoutRFC3339 : String := "2006-01-02T15:04:05Z07:00"

/-- Errors the `DeletedAt` methods can surface. -/
inductive GoErr where
  | parseError (layout : String) (input : String)
  | unmarshalTimeError (input : String)
  | yearOutOfRange
deriving DecidableEq, Repr

/-- The dynamic value handed to `sql.Scanner.Scan`: nil, a `time.Time`, a
string, or a value of any other dynamic type (the `otherVal` constructor). -/
inductive SqlValue where
  | null
  | timeVal (t : GoTime)
  | strVal (s : String)
  | otherVal
deriving DecidableEq, Repr

/-- The `DeletedAt` struct shared by both Go definitions: a time plus a
validity flag. -/
structure DeletedAt where
  Time : GoTime
  Valid : Bool
deriving DecidableEq, Repr

/-- Outcome of a fallible Go call: a value or an error. -/
inductive Result (ε α : Type) where
  | ok (a : α)
  | error (e : ε)
deriving DecidableEq, Repr

namespace DatabaseRoot

/-- `DeletedAt.Scan` from `src/database.go`: nil resets to the zero invalid
state; a `time.Time` is taken as is; a string is parsed with layout
`2006-01-02 15:04:05` (parse failure returns the error, receiver unchanged);
any other value resets the receiver to the zero invalid state and returns nil. -/
def DeletedAt.Scan (dt : DeletedAt) : SqlValue → DeletedAt × Option GoErr
  | .null => (⟨GoTime.zero, false⟩, none)
  | .timeVal v => (⟨v, true⟩, none)
  | .strVal s =>
    match timeParseDateTime s with
    | some t => (⟨t, true⟩, none)
    | none => (dt, some (.parseError layoutDateTime s))
  | .otherVal => (⟨GoTime.zero, false⟩, none)

/-- `DeletedAt.Value` from `src/database.go`: nil when invalid, the time
otherwise; never errs. -/
def DeletedAt.Value (dt : DeletedAt) : Option GoTime × Option GoErr :=
  if !dt.Valid then (none, none) else (some dt.Time, none)

/-- `DeletedAt.MarshalJSON` from `src/database.go`: the literal `null` when
invalid, otherwise `json.Marshal(dt.Time)`. -/
def DeletedAt.MarshalJSON (dt : DeletedAt) : Result GoErr String :=
  if !dt.Valid then .ok "null"
  else
    match marshalTimeJSON dt.Time with
    | some s => .ok s
    | none => .error .yearOutOfRange

/-- `DeletedAt.UnmarshalJSON` from `src/database.go`: `null` clears `Valid`
keeping `Time`; otherwise `json.Unmarshal` into a `time.Time` — on failure the
error is returned with the receiver unchanged, on success the receiver becomes
the parsed time, valid. -/
def DeletedAt.UnmarshalJSON (dt : DeletedAt) (data : String) : DeletedAt × Option GoErr :=
  if data = "null" then ({ dt with Valid := false }, none)
  else
    match unmarshalTimeJSON data with
    | some t => (⟨t, true⟩, none)
    | none => (dt, some (.unmarshalTimeError data))

end DatabaseRoot

namespace DatabasePkg

/-- `DeletedAt.Scan` from `src/database/database.go`: nil resets to the zero
invalid state; a `time.Time` is taken as is; a string is parsed with layout
`time.RFC3339` (parse failure returns the error, receiver unchanged); a value
of any other type falls through the switch and returns nil with the receiver
unchanged. -/
def DeletedAt.Scan (dt : DeletedAt) : SqlValue → DeletedAt × Option GoErr
  | .null => (⟨GoTime.zero, false⟩, none)
  | .timeVal v => (⟨v, true⟩, none)
  | .strVal s =>
    match timeParseRFC3339 s with
    | some t => (⟨t, true⟩, none)
    | none => (dt, some (.parseError layoutRFC3339 s))
  | .otherVal => (dt, none)

/-- `DeletedAt.Value` from `src/database/database.go`: textually the same body
as the root definition. -/
def DeletedAt.Value (dt : DeletedAt) : Option GoTime × Option GoErr :=
  if !dt.Valid then (none, none) else (some dt.Time, none)

/-- `DeletedAt.MarshalJSON` from `src/database/database.go`: the literal
`null` when invalid, otherwise `dt.Time.MarshalJSON()`. -/
def DeletedAt.MarshalJSON (dt : DeletedAt) : Result GoErr String :=
  if !dt.Valid then .ok "null"
  else
    match marshalTimeJSON dt.Time with
    | some s => .ok s
    | none => .error .yearOutOfRange

/-- `DeletedAt.UnmarshalJSON` from `src/database/database.go`: `null` clears
`Valid` keeping `Time`; otherwise `dt.Time.UnmarshalJSON(data)` and
`dt.Valid = err == nil` — so on failure `Valid` is cleared (unlike the root
definition, which leaves the receiver untouched). -/
def DeletedAt.UnmarshalJSON (dt : DeletedAt) (data : String) : DeletedAt × Option GoErr :=
  if data = "null" then ({ dt with Valid := false }, none)
  else
    match unmarshalTimeJSON data with
    | some t => (⟨t, true⟩, none)
    | none => ({ dt with Valid := false }, some (.unmarshalTimeError data))

end DatabasePkg

/-!
Part 2: the IoC container.  The repository declares the `Container`,
`ContextualBinding`, `Resolver` and `ServiceProvider` interfaces
(`src/unnamed/part_001`, `src/container/contextual_binding.go`,
`src/container/resolver.go`) but contains no implementation of any of them,
so the definitions below are modelled from the spec (spec.md §3-§4, §7): the
data model of Bindings, aliases and contextual bindings, and the `Make`
resolution algorithm of §4.2 with the cycle-detecting build stack carried as
call-local state (§5).  Factories and constructors are defunctionalised into
the closed `Concrete` variant that §9 of the spec recommends; instance
identity is modelled by allocating a fresh numeric id from a counter on every
construction.  Recursion is measured by an explicit fuel argument; running
out of fuel is a modelling artifact reported by `CErr.fuelExhausted`, and the
claim theorems hold for every sufficient fuel.
-/

/-- Association-list lookup keyed by decidable equality; the first entry for
a key wins, and the container operations below keep at most one entry per
key. -/
def alookup {κ β : Type} [DecidableEq κ] (k : κ) : List (κ × β) → Option β
  | [] => none
  | (k2, v) :: t => if k2 = k then some v else alookup k t

/-- Association-list update: replaces the entry for the key, or appends one. -/
def aset {κ β : Type} [DecidableEq κ] (k : κ) (v : β) : List (κ × β) → List (κ × β)
  | [] => [(k, v)]
  | (k2, v2) :: t => if k2 = k then (k, v) :: t else (k2, v2) :: aset k v t

/-- Modelled from the spec: a resolved service instance (the repository has no
implementation of instance construction).  `id` is a freshly allocated
identity — two instances are "identity-equal" exactly when their ids are
equal — `tag` records which factory or type descriptor produced it, and
`fields` records, in declaration order, the identity and tag of each injected
dependency instance. -/
structure Value where
  id : Nat
  tag : String
  fields : List (Nat × String)
deriving DecidableEq, Repr

/-- Modelled from the spec: the closed variant of concrete producers that §3
and §9 describe ("factory function producing an instance given the
container, a constructible type descriptor, or a pre-built instance"; the
repository only declares `Bind(abstract, concrete interface{}, shared)`).
Factory functions are defunctionalised into the two behaviours the spec's
scenarios use: a factory returning a fresh instance (`factoryConst`) and a
factory that resolves another abstract through the container
(`factoryMake`).  `ctorDesc` is a constructible type descriptor with its
declared dependency list (§4.4), and `inst` a pre-built instance. -/
inductive Concrete where
  | factoryConst (tag : String)
  | factoryMake (target : String)
  | ctorDesc (typeName : String) (deps : List String)
  | inst (v : Value)
deriving DecidableEq, Repr

/-- Modelled from the spec: the error kinds of §7 (the repository declares no
error types).  `construction` wraps a dependency-resolution failure with the
abstract being constructed and the failing dependency's position and name;
`fuelExhausted` is the fuel-model artifact, never produced at sufficient
fuel. -/
inductive CErr where
  | unknownAbstract (abstract : String)
  | unboundAbstract (abstract : String)
  | circularDependency (path : List String)
  | construction (owner : String) (index : Nat) (dep : String) (inner : CErr)
  | fuelExhausted
deriving DecidableEq, Repr

/-- Modelled from the spec: one registered Binding (§3) — concrete producer,
`shared` lifecycle flag, the cached `resolvedInstance` present only after a
shared resolution, and the tag set. -/
structure Binding where
  concrete : Concrete
  shared : Bool
  resolvedInstance : Option Value
  tags : List String
deriving DecidableEq, Repr

/-- Modelled from the spec: the Container state (§3) — the Binding table, the
alias table (alias to canonical abstract), the contextual-binding table keyed
by (consumer, needed abstract), and the fresh-id counter that models instance
identity.  The build stack is deliberately not stored here: §5 requires it to
be call-local, and `Container.Make` below threads it as an argument. -/
structure Container where
  bindings : List (String × Binding)
  aliases : List (String × String)
  contextual : List ((String × String) × Concrete)
  nextId : Nat
deriving DecidableEq, Repr

namespace Container

/-- Modelled from the spec: a Container is created empty (§3). -/
def empty : Container := ⟨[], [], [], 0⟩

/-- Modelled from the spec: `Bind` (§4.1) registers or replaces a Binding,
clearing any previously cached singleton instance for this abstract.  With
the closed `Concrete` variant there is no ill-shaped concrete, so the
`InvalidConcreteKind` failure of §4.1 cannot arise and `Bind` always
succeeds. -/
def Bind (c : Container) (abstract : String) (concrete : Concrete) (shared : Bool) :
    Container :=
  { c with bindings := aset abstract ⟨concrete, shared, none, []⟩ c.bindings }

/-- Modelled from the spec: `Bound` (§4.2) — true iff a Binding exists after
alias resolution; triggers no resolution and mutates nothing. -/
def resolveAlias (c : Container) (a : String) : String :=
  match alookup a c.aliases with
  | some canonical => canonical
  | none => a

/-- Modelled from the spec: `Bound` (§4.2) — true iff a Binding
(post-alias-resolution) exists. -/
def Bound (c : Container) (a : String) : Bool :=
  (alookup (resolveAlias c a) c.bindings).isSome

/-- Modelled from the spec: `BindIf` (§4.1) — a no-op returning success when
the abstract is already bound, otherwise identical to `Bind`. -/
def BindIf (c : Container) (abstract : String) (concrete : Concrete) (shared : Bool) :
    Container :=
  if Bound c abstract then c else Bind c abstract concrete shared

/-- Modelled from the spec: `Singleton` (§4.1) is shorthand for `Bind` with
`shared = true`. -/
def Singleton (c : Container) (abstract : String) (concrete : Concrete) : Container :=
  Bind c abstract concrete true

/-- Modelled from the spec: `Instance` (§4.1) registers a Binding with
`shared = true` and `resolvedInstance` pre-populated. -/
def Instance (c : Container) (abstract : String) (v : Value) : Container :=
  { c with bindings := aset abstract ⟨Concrete.inst v, true, some v, []⟩ c.bindings }

/-- Modelled from the spec: `Alias` (§4.1) — fails with `UnknownAbstract`
when the abstract has no Binding, otherwise records alias → abstract. -/
def Alias (c : Container) (abstract : String) (aliasName : String) :
    Container × Result CErr Unit :=
  match alookup abstract c.bindings with
  | none => (c, .error (.unknownAbstract abstract))
  | some _ => ({ c with aliases := aset aliasName abstract c.aliases }, .ok ())

/-- Modelled from the spec: `When(consumer).Needs(abstract).Give(concrete)`
(§4.3) registers a contextual override for the (consumer, abstract) pair;
re-registration overwrites (last write wins, §4.3's tie-break rule). -/
def WhenNeedsGive (c : Container) (consumer : String) (needed : String)
    (concrete : Concrete) : Container :=
  { c with contextual := aset (consumer, needed) concrete c.contextual }

/-- Modelled from the spec: `Flush` (§3 lifecycle) drops all bindings,
aliases, contextual entries and cached singleton instances, returning the
container to its created-empty state. -/
def Flush (_c : Container) : Container := Container.empty

/-- Modelled from the spec: `Resolved` (§4.2) — true iff the Binding exists,
is shared, and already has a cached instance. -/
def Resolved (c : Container) (a : String) : Bool :=
  match alookup (resolveAlias c a) c.bindings with
  | some b => b.shared && b.resolvedInstance.isSome
  | none => false

/-- Modelled from the spec: the contextual lookup of §4.2 step 2 — the
current build target is the abstract currently under construction, i.e. the
head of the build stack; at top level there is no consumer and no override
applies. -/
def ctxConcrete (c : Container) (stack : List String) (needed : String) :
    Option Concrete :=
  match stack with
  | [] => none
  | consumer :: _ => alookup (consumer, needed) c.contextual

/-- Modelled from the spec: §4.2 step 8 — cache the produced instance on the
Binding of the canonical abstract. -/
def cacheAt (c : Container) (abstract : String) (v : Value) : Container :=
  match alookup abstract c.bindings with
  | some b =>
    { c with bindings := aset abstract { b with resolvedInstance := some v } c.bindings }
  | none => c

/-- Modelled from the spec: construction of a new instance — a fresh identity
is drawn from the container's counter, so distinct constructions are never
identity-equal. -/
def allocValue (c : Container) (tag : String) (fields : List (Nat × String)) :
    Container × Result CErr Value :=
  ({ c with nextId := c.nextId + 1 }, .ok ⟨c.nextId, tag, fields⟩)

mutual

/-- Modelled from the spec: `Make` (§4.2), with the per-resolution-call build
stack passed as call-local state (§5) and an explicit fuel for recursion.
Steps, in the spec's order: resolve the alias to the canonical abstract;
consult the contextual override for (current build target, abstract) and, on
a hit, construct from that concrete (pushing the abstract and checking the
build stack for a cycle) without touching the global Binding table; otherwise
look up the Binding, failing with `UnboundAbstractError` when none exists;
when shared and cached, return the cached `resolvedInstance` directly with no
cycle check and no construction; otherwise fail with
`CircularDependencyError` when the abstract is already on the build stack,
else push it, invoke the concrete producer, and — when shared — cache the
produced instance on the Binding before returning. -/
def Make : Nat → Container → List String → String → Container × Result CErr Value
  | 0, c, _, _ => (c, .error .fuelExhausted)
  | fuel + 1, c, stack, a =>
    let ca := resolveAlias c a
    match ctxConcrete c stack ca with
    | some conc =>
      if ca ∈ stack then (c, .error (.circularDependency (ca :: stack)))
      else invoke fuel c (ca :: stack) conc
    | none =>
      match alookup ca c.bindings with
      | none => (c, .error (.unboundAbstract ca))
      | some b =>
        match b.shared, b.resolvedInstance with
        | true, some v => (c, .ok v)
        | true, none =>
          if ca ∈ stack then (c, .error (.circularDependency (ca :: stack)))
          else
            match invoke fuel c (ca :: stack) b.concrete with
            | (c2, .error e) => (c2, .error e)
            | (c2, .ok v) => (cacheAt c2 ca v, .ok v)
        | false, _ =>
          if ca ∈ stack then (c, .error (.circularDependency (ca :: stack)))
          else
            match invoke fuel c (ca :: stack) b.concrete with
            | (c2, .error e) => (c2, .error e)
            | (c2, .ok v) => (c2, .ok v)

/-- Modelled from the spec: §4.2 step 6 — invoke the concrete producer.  A
pre-built instance is used directly; a fresh-instance factory allocates; a
redirecting factory calls `Make` on its target with the same build stack; a
constructible type resolves its declared dependency list in order (§4.4) and
constructs an instance holding the resolved dependencies. -/
def invoke : Nat → Container → List String → Concrete → Container × Result CErr Value
  | _, c, _, .inst v => (c, .ok v)
  | _, c, _, .factoryConst tag => allocValue c tag []
  | 0, c, _, .factoryMake _ => (c, .error .fuelExhausted)
  | fuel + 1, c, stack, .factoryMake target => Make fuel c stack target
  | 0, c, _, .ctorDesc _ _ => (c, .error .fuelExhausted)
  | fuel + 1, c, stack, .ctorDesc typeName deps =>
    match resolveDeps fuel c stack typeName 0 deps with
    | (c2, .error e) => (c2, .error e)
    | (c2, .ok vs) => allocValue c2 typeName (vs.map fun v => (v.id, v.tag))

/-- Modelled from the spec: §4.4 — resolve a declared dependency list
strictly in declaration order through the same `Make` algorithm,
short-circuiting on the first failure with the error tagged with the owning
abstract and the failing dependency's position and name. -/
def resolveDeps : Nat → Container → List String → String → Nat → List String →
    Container × Result CErr (List Value)
  | _, c, _, _, _, [] => (c, .ok [])
  | 0, c, _, _, _, _ :: _ => (c, .error .fuelExhausted)
  | fuel + 1, c, stack, owner, i, d :: ds =>
    match Make fuel c stack d with
    | (c1, .error e) => (c1, .error (.construction owner i d e))
    | (c1, .ok v) =>
      match resolveDeps fuel c1 stack owner (i + 1) ds with
      | (c2, .error e) => (c2, .error e)
      | (c2, .ok vs) => (c2, .ok (v :: vs))

end

end Container

/-- The side effects a resolution call with build stack `stack` may have on a
container: it never touches the alias or contextual tables, and it never
modifies the Binding of any abstract currently on the build stack (cache
writes only target the abstract just constructed, which the cycle check keeps
off the stack below it). -/
def Preserves (c : Container) (stack : List String) (c2 : Container) : Prop :=
  c2.aliases = c.aliases ∧ c2.contextual = c.contextual ∧
    ∀ k, k ∈ stack → alookup k c2.bindings = alookup k c.bindings

/-- The contextual-binding scenario of the spec's §4.3 and §8: a globally
bound `Logger`, a `DebugLogger`, and a `Consumer` type depending on
`Logger`. -/
def c6Base : Container :=
  Container.Bind
    (Container.Bind
      (Container.Bind Container.empty "Logger" (Concrete.factoryConst "FileLogger") false)
      "DebugLogger" (Concrete.factoryConst "DebugConsole") false)
    "Consumer" (Concrete.ctorDesc "Consumer" ["Logger"]) false

/-- `c6Base` with the contextual override
`When("Consumer").Needs("Logger").Give("DebugLogger")` registered; giving a
service name redirects resolution to that abstract, i.e. `factoryMake`. -/
def c6Ctx : Container :=
  Container.WhenNeedsGive c6Base "Consumer" "Logger" (Concrete.factoryMake "DebugLogger")

/-!
Helper lemmas: association lists, the digit and RFC3339 round trips, and the
frame properties of the resolver.
-/

lemma alookup_aset_self {κ β : Type} [DecidableEq κ] (k : κ) (v : β) :
    ∀ m : List (κ × β), alookup k (aset k v m) = some v
  | [] => by simp [aset, alookup]
  | (k2, v2) :: t => by
    by_cases h : k2 = k
    · simp [aset, alookup, h]
    · simp [aset, alookup, h, alookup_aset_self k v t]

lemma alookup_aset_ne {κ β : Type} [DecidableEq κ] {k k2 : κ} (v : β) (h : k2 ≠ k) :
    ∀ m : List (κ × β), alookup k (aset k2 v m) = alookup k m
  | [] => by simp [aset, alookup, h]
  | (k3, v3) :: t => by
    by_cases h3 : k3 = k2
    · subst h3
      simp [aset, alookup, h]
    · simp only [aset, if_neg h3]
      by_cases h4 : k3 = k
      · simp [alookup, h4]
      · simp [alookup, h4, alookup_aset_ne v h t]

lemma preserves_refl (c : Container) (stack : List String) : Preserves c stack c :=
  ⟨rfl, rfl, fun _ _ => rfl⟩

lemma preserves_trans {c c1 c2 : Container} {stack : List String}
    (h1 : Preserves c stack c1) (h2 : Preserves c1 stack c2) : Preserves c stack c2 :=
  ⟨h2.1.trans h1.1, h2.2.1.trans h1.2.1,
    fun k hk => (h2.2.2 k hk).trans (h1.2.2 k hk)⟩

lemma preserves_pop {c c2 : Container} {x : String} {stack : List String}
    (h : Preserves c (x :: stack) c2) : Preserves c stack c2 :=
  ⟨h.1, h.2.1, fun k hk => h.2.2 k (List.mem_cons_of_mem _ hk)⟩

lemma cacheAt_aliases (c : Container) (a : String) (v : Value) :
    (Container.cacheAt c a v).aliases = c.aliases := by
  unfold Container.cacheAt
  split <;> rfl

lemma cacheAt_contextual (c : Container) (a : String) (v : Value) :
    (Container.cacheAt c a v).contextual = c.contextual := by
  unfold Container.cacheAt
  split <;> rfl

lemma cacheAt_alookup_ne (c : Container) (a : String) (v : Value) {k : String}
    (h : a ≠ k) : alookup k (Container.cacheAt c a v).bindings = alookup k c.bindings := by
  unfold Container.cacheAt
  cases hl : alookup a c.bindings with
  | none => rfl
  | some b => simpa using alookup_aset_ne _ h c.bindings

lemma preserves_cacheAt {c c2 : Container} {stack : List String} {a : String} {v : Value}
    (h : Preserves c stack c2) (ha : a ∉ stack) :
    Preserves c stack (Container.cacheAt c2 a v) := by
  refine ⟨(cacheAt_aliases c2 a v).trans h.1, (cacheAt_contextual c2 a v).trans h.2.1,
    fun k hk => ?_⟩
  have hne : a ≠ k := fun he => ha (he ▸ hk)
  exact (cacheAt_alookup_ne c2 a v hne).trans (h.2.2 k hk)

lemma preserves_alloc (c : Container) (stack : List String) (tag : String)
    (fields : List (Nat × String)) :
    Preserves c stack (Container.allocValue c tag fields).1 :=
  ⟨rfl, rfl, fun _ _ => rfl⟩

theorem make_preserves : ∀ fuel : Nat,
    (∀ c stack a, Preserves c stack (Container.Make fuel c stack a).1) ∧
    (∀ c stack conc, Preserves c stack (Container.invoke fuel c stack conc).1) ∧
    (∀ c stack owner i ds, Preserves c stack (Container.resolveDeps fuel c stack owner i ds).1) := by
  intro fuel
  induction fuel with
  | zero =>
    refine ⟨fun c stack a => preserves_refl c stack, fun c stack conc => ?_,
      fun c stack owner i ds => ?_⟩
    · cases conc with
      | inst v => exact preserves_refl c stack
      | factoryConst tag => exact preserves_alloc c stack tag []
      | factoryMake target => exact preserves_refl c stack
      | ctorDesc typeName deps => exact preserves_refl c stack
    · cases ds with
      | nil => exact preserves_refl c stack
      | cons d ds => exact preserves_refl c stack
  | succ fuel ih =>
    obtain ⟨ihM, ihI, ihD⟩ := ih
    have invokeCase : ∀ c stack conc,
        Preserves c stack (Container.invoke (fuel + 1) c stack conc).1 := by
      intro c stack conc
      cases conc with
      | inst v => exact preserves_refl c stack
      | factoryConst tag => exact preserves_alloc c stack tag []
      | factoryMake target =>
        simpa only [Container.invoke] using ihM c stack target
      | ctorDesc typeName deps =>
        simp only [Container.invoke]
        have hD := ihD c stack typeName 0 deps
        cases hres : Container.resolveDeps fuel c stack typeName 0 deps with
        | mk c2 r =>
          rw [hres] at hD
          cases r with
          | error e => exact hD
          | ok vs => exact preserves_trans hD (preserves_alloc c2 stack typeName _)
    have depsCase : ∀ c stack owner i ds,
        Preserves c stack (Container.resolveDeps (fuel + 1) c stack owner i ds).1 := by
      intro c stack owner i ds
      cases ds with
      | nil => exact preserves_refl c stack
      | cons d ds =>
        simp only [Container.resolveDeps]
        have hM := ihM c stack d
        cases hm : Container.Make fuel c stack d with
        | mk c1 r1 =>
          rw [hm] at hM
          cases r1 with
          | error e => exact hM
          | ok v =>
            dsimp only
            have hDs := ihD c1 stack owner (i + 1) ds
            cases hd : Container.resolveDeps fuel c1 stack owner (i + 1) ds with
            | mk c2 r2 =>
              rw [hd] at hDs
              cases r2 with
              | error e => exact preserves_trans hM hDs
              | ok vs => exact preserves_trans hM hDs
    refine ⟨?_, invokeCase, depsCase⟩
    intro c stack a
    simp only [Container.Make]
    generalize Container.resolveAlias c a = ca
    cases hctx : Container.ctxConcrete c stack ca with
    | some conc =>
      dsimp only
      by_cases hmem : ca ∈ stack
      · rw [if_pos hmem]
        exact preserves_refl c stack
      · rw [if_neg hmem]
        exact preserves_pop (ihI c (ca :: stack) conc)
    | none =>
      dsimp only
      cases hlk : alookup ca c.bindings with
      | none => exact preserves_refl c stack
      | some b =>
        dsimp only
        have hI := ihI c (ca :: stack) b.concrete
        cases hsh : b.shared with
        | true =>
          cases hres : b.resolvedInstance with
          | some v => exact preserves_refl c stack
          | none =>
            dsimp only
            by_cases hmem : ca ∈ stack
            · rw [if_pos hmem]
              exact preserves_refl c stack
            · rw [if_neg hmem]
              cases hInv : Container.invoke fuel c (ca :: stack) b.concrete with
              | mk c2 r =>
                rw [hInv] at hI
                cases r with
                | error e => exact preserves_pop hI
                | ok v => exact preserves_cacheAt (preserves_pop hI) hmem
        | false =>
          dsimp only
          by_cases hmem : ca ∈ stack
          · rw [if_pos hmem]
            exact preserves_refl c stack
          · rw [if_neg hmem]
            cases hInv : Container.invoke fuel c (ca :: stack) b.concrete with
            | mk c2 r =>
              rw [hInv] at hI
              cases r with
              | error e => exact preserves_pop hI
              | ok v => exact preserves_pop hI

lemma charDigit_digitChar : ∀ d : Nat, d < 10 → charDigit (digitChar d) = some d := by
  decide

lemma parse2_pad2 (n : Nat) (rest : List Char) (h : n < 100) :
    parse2 (pad2 n ++ rest) = some (n, rest) := by
  have h1 : n / 10 % 10 < 10 := Nat.mod_lt _ (by omega)
  have h2 : n % 10 < 10 := Nat.mod_lt _ (by omega)
  simp [pad2, parse2, charDigit_digitChar _ h1, charDigit_digitChar _ h2]
  omega

lemma parse4_pad4 (n : Nat) (rest : List Char) (h : n < 10000) :
    parse4 (pad4 n ++ rest) = some (n, rest) := by
  have h1 : n / 1000 % 10 < 10 := Nat.mod_lt _ (by omega)
  have h2 : n / 100 % 10 < 10 := Nat.mod_lt _ (by omega)
  have h3 : n / 10 % 10 < 10 := Nat.mod_lt _ (by omega)
  have h4 : n % 10 < 10 := Nat.mod_lt _ (by omega)
  simp [pad4, parse4, charDigit_digitChar _ h1, charDigit_digitChar _ h2,
    charDigit_digitChar _ h3, charDigit_digitChar _ h4]
  omega

lemma expectChar_cons (ch : Char) (rest : List Char) :
    expectChar ch (ch :: rest) = some rest := by
  simp [expectChar]

lemma parseRFC3339Core_fmt (t : GoTime) (rest : List Char)
    (hy : t.year < 10000) (hmo : t.month < 100) (hd : t.day < 100)
    (hh : t.hour < 100) (hmi : t.minute < 100) (hs : t.second < 100) :
    parseRFC3339Core (fmtRFC3339 t ++ rest) = some (t, rest) := by
  simp only [fmtRFC3339, List.append_assoc, List.cons_append]
  simp only [parseRFC3339Core, parse4_pad4 _ _ hy, expectChar_cons,
    parse2_pad2 _ _ hmo, parse2_pad2 _ _ hd, parse2_pad2 _ _ hh,
    parse2_pad2 _ _ hmi, parse2_pad2 _ _ hs, Option.bind_eq_bind,
    Option.bind_some, Option.some_bind]
  rfl

lemma Make_cached_top (fuel : Nat) (c : Container) (a : String) (b : Binding) (v : Value)
    (hal : alookup a c.aliases = none)
    (hb : alookup a c.bindings = some b)
    (hsh : b.shared = true)
    (hres : b.resolvedInstance = some v) :
    Container.Make (fuel + 1) c [] a = (c, .ok v) := by
  simp only [Container.Make, Container.resolveAlias, hal, Container.ctxConcrete, hb,
    hsh, hres]

lemma Make_alias_eq (fuel : Nat) (c : Container) (stack : List String) (al ab : String)
    (h1 : alookup al c.aliases = some ab) (h2 : alookup ab c.aliases = none) :
    Container.Make fuel c stack al = Container.Make fuel c stack ab := by
  cases fuel with
  | zero => rfl
  | succ fuel => simp only [Container.Make, Container.resolveAlias, h1, h2]

lemma resolveDeps_append (tail : List String) :
    ∀ (ds1 : List String) (fuel : Nat) (c c1 : Container) (stack : List String)
      (owner : String) (i : Nat) (vs : List Value),
      Container.resolveDeps fuel c stack owner i ds1 = (c1, .ok vs) →
      Container.resolveDeps fuel c stack owner i (ds1 ++ tail)
        = (match Container.resolveDeps (fuel - ds1.length) c1 stack owner
              (i + ds1.length) tail with
           | (c2, Result.ok vs2) => (c2, Result.ok (vs ++ vs2))
           | (c2, Result.error e) => (c2, Result.error e)) := by
  intro ds1
  induction ds1 with
  | nil =>
    intro fuel c c1 stack owner i vs h
    simp only [Container.resolveDeps, Prod.mk.injEq, Result.ok.injEq] at h
    obtain ⟨h1, h2⟩ := h
    subst h1
    subst h2
    simp only [List.nil_append, List.length_nil, Nat.sub_zero, Nat.add_zero]
    cases hres : Container.resolveDeps fuel c stack owner i tail with
    | mk c2 r =>
      cases r with
      | ok vs2 => simp
      | error e => simp
  | cons d ds ih =>
    intro fuel c c1 stack owner i vs h
    cases fuel with
    | zero => simp [Container.resolveDeps] at h
    | succ fuel =>
      simp only [List.cons_append, Container.resolveDeps] at h ⊢
      cases hm : Container.Make fuel c stack d with
      | mk cm rm =>
        rw [hm] at h
        cases rm with
        | error e => simp at h
        | ok v =>
          dsimp only at h ⊢
          cases hds : Container.resolveDeps fuel cm stack owner (i + 1) ds with
          | mk cd rd =>
            rw [hds] at h
            cases rd with
            | error e => simp at h
            | ok vs2 =>
              simp only [Prod.mk.injEq, Result.ok.injEq] at h
              obtain ⟨h1, h2⟩ := h
              subst h1
              subst h2
              have hih := ih fuel cm cd stack owner (i + 1) vs2 hds
              rw [show List.append ds tail = ds ++ tail from rfl, hih]
              have harith : i + (ds.length + 1) = i + 1 + ds.length := by omega
              simp only [List.length_cons, Nat.succ_sub_succ_eq_sub, harith]
              cases hX : Container.resolveDeps (fuel - ds.length) cd stack owner
                  (i + 1 + ds.length) tail with
              | mk c3 r3 =>
                cases r3 with
                | ok vs3 => simp
                | error e => simp

lemma make_reenter_binding (fuel : Nat) (c : Container) (stack : List String)
    (a : String) (b : Binding)
    (hmem : Container.resolveAlias c a ∈ stack)
    (hctx : Container.ctxConcrete c stack (Container.resolveAlias c a) = none)
    (hlk : alookup (Container.resolveAlias c a) c.bindings = some b)
    (hcache : b.shared = true → b.resolvedInstance = none) :
    Container.Make (fuel + 1) c stack a
      = (c, .error (.circularDependency (Container.resolveAlias c a :: stack))) := by
  simp only [Container.Make]
  rw [hctx]
  dsimp only
  rw [hlk]
  dsimp only
  cases hsh : b.shared with
  | true =>
    rw [hcache hsh]
    dsimp only
    rw [if_pos hmem]
  | false =>
    dsimp only
    rw [if_pos hmem]

lemma make_reenter_ctx (fuel : Nat) (c : Container) (stack : List String)
    (a : String) (conc : Concrete)
    (hmem : Container.resolveAlias c a ∈ stack)
    (hctx : Container.ctxConcrete c stack (Container.resolveAlias c a) = some conc) :
    Container.Make (fuel + 1) c stack a
      = (c, .error (.circularDependency (Container.resolveAlias c a :: stack))) := by
  simp only [Container.Make]
  rw [hctx]
  dsimp only
  rw [if_pos hmem]

lemma unmarshalTimeJSON_mk (l : List Char) :
    unmarshalTimeJSON (String.mk ('"' :: l)) =
      (match parseRFC3339Core l with
       | some (t, ['"']) => some t
       | _ => none) := rfl

/-!
The claim theorems.
-/

/-- C4: for every abstract, Bind then Flush then Make fails with
`UnboundAbstractError`; `Flush` drops all bindings, aliases, contextual
entries and cached singleton instances, returning the container to its
created-empty state.  The `Make` failure holds on the empty container for
every abstract and every fuel. -/
theorem C4_bind_flush_make_unbound :
    (∀ (c : Container) (a : String) (conc : Concrete) (sh : Bool),
        Container.Flush (Container.Bind c a conc sh) = Container.empty) ∧
    (∀ (fuel : Nat) (a : String),
        Container.Make (fuel + 1) Container.empty [] a
          = (Container.empty, .error (.unboundAbstract a))) := by
  refine ⟨fun c a conc sh => rfl, fun fuel a => ?_⟩
  simp [Container.Make, Container.resolveAlias, Container.ctxConcrete,
    Container.empty, alookup]

/-- C8: `BindIf` on an already-bound abstract returns success leaving the
entire container state unchanged, and on an unbound abstract behaves exactly
like `Bind`. -/
theorem C8_bindIf_noop_or_bind (c : Container) (a : String) (conc : Concrete)
    (sh : Bool) :
    (Container.Bound c a = true → Container.BindIf c a conc sh = c) ∧
    (Container.Bound c a = false →
      Container.BindIf c a conc sh = Container.Bind c a conc sh) := by
  unfold Container.BindIf
  constructor
  · intro h
    simp [h]
  · intro h
    simp [h]

/-- Witness for C8 at concrete containers: a bound abstract makes `BindIf` a
no-op, an unbound one makes it `Bind`. -/
theorem C8_bindIf_noop_or_bind_witness :
    (Container.Bound (Container.Bind Container.empty "A" (Concrete.factoryConst "X") false) "A" = true ∧
      Container.BindIf (Container.Bind Container.empty "A" (Concrete.factoryConst "X") false)
          "A" (Concrete.factoryConst "Y") true
        = Container.Bind Container.empty "A" (Concrete.factoryConst "X") false) ∧
    (Container.Bound Container.empty "A" = false ∧
      Container.BindIf Container.empty "A" (Concrete.factoryConst "Y") true
        = Container.Bind Container.empty "A" (Concrete.factoryConst "Y") true) :=
  ⟨⟨by decide, (C8_bindIf_noop_or_bind _ "A" _ true).1 (by decide)⟩,
   ⟨by decide, (C8_bindIf_noop_or_bind _ "A" _ true).2 (by decide)⟩⟩

/-- C6: with `When("Consumer").Needs("Logger").Give("DebugLogger")`
registered, constructing `"Consumer"` injects the instance produced for
`"DebugLogger"` (tag `DebugConsole`), while resolving `"Logger"` directly
still yields the globally bound logger (tag `FileLogger`), identical to the
resolution on the container without the override; registering the override
changes neither the Binding table nor the alias table of any container. -/
theorem C6_contextual_override :
    ((Container.Make 10 c6Ctx [] "Consumer").2
        = .ok ⟨1, "Consumer", [(0, "DebugConsole")]⟩) ∧
    ((Container.Make 10 c6Ctx [] "Logger").2 = .ok ⟨0, "FileLogger", []⟩) ∧
    ((Container.Make 10 c6Ctx [] "Logger").2 = (Container.Make 10 c6Base [] "Logger").2) ∧
    (c6Ctx.bindings = c6Base.bindings) ∧
    (∀ (c : Container) (consumer needed : String) (conc : Concrete),
        (Container.WhenNeedsGive c consumer needed conc).bindings = c.bindings ∧
        (Container.WhenNeedsGive c consumer needed conc).aliases = c.aliases) :=
  ⟨by decide, by decide, by decide, by decide,
    fun c consumer needed conc => ⟨rfl, rfl⟩⟩

/-- C5 counterexample: in the claimed order — `Alias("db","database")` before
`Bind("db", ...)` — the `Alias` call fails with `UnknownAbstract` (§4.1
requires the abstract to be bound already) and records nothing, so resolving
`"database"` afterwards fails with `UnboundAbstractError` even though
resolving `"db"` succeeds. -/
theorem C5_alias_before_bind_counterexample :
    ((Container.Alias Container.empty "db" "database").2
        = .error (.unknownAbstract "db")) ∧
    ((Container.Make 5 (Container.Bind (Container.Alias Container.empty "db" "database").1
          "db" (Concrete.factoryConst "DB") false) [] "database").2
        = .error (.unboundAbstract "database")) ∧
    ((Container.Make 5 (Container.Bind (Container.Alias Container.empty "db" "database").1
          "db" (Concrete.factoryConst "DB") false) [] "db").2
        = .ok ⟨0, "DB", []⟩) :=
  ⟨by decide, by decide, by decide⟩

/-- C5 amended: with the two calls in the order §4.1 permits —
`Bind("db", ...)` then `Alias("db","database")` — resolving `"database"`
behaves identically to resolving the canonical `"db"`: same result and same
final container, for every fuel, every stack and every concrete; in
particular any shared-instance caching lands on the `"db"` Binding. -/
theorem C5_alias_resolves_canonical (fuel : Nat) (c : Container) (conc : Concrete)
    (sh : Bool) (stack : List String)
    (hdb : alookup "db" c.aliases = none) :
    Container.Make fuel
        (Container.Alias (Container.Bind c "db" conc sh) "db" "database").1 stack "database"
      = Container.Make fuel
          (Container.Alias (Container.Bind c "db" conc sh) "db" "database").1 stack "db" := by
  have hbound : alookup "db" (Container.Bind c "db" conc sh).bindings
      = some ⟨conc, sh, none, []⟩ := alookup_aset_self _ _ _
  have hc2 : (Container.Alias (Container.Bind c "db" conc sh) "db" "database").1
      = { Container.Bind c "db" conc sh with
            aliases := aset "database" "db" (Container.Bind c "db" conc sh).aliases } := by
    simp [Container.Alias, hbound]
  rw [hc2]
  apply Make_alias_eq
  · exact alookup_aset_self _ _ _
  · have hne : alookup "db" (aset "database" "db" (Container.Bind c "db" conc sh).aliases)
        = alookup "db" (Container.Bind c "db" conc sh).aliases :=
      alookup_aset_ne _ (by decide) _
    rw [hne]
    exact hdb

/-- Witness for C5 amended at a concrete container. -/
theorem C5_alias_resolves_canonical_witness :
    alookup "db" Container.empty.aliases = none ∧
    Container.Make 5
        (Container.Alias (Container.Bind Container.empty "db" (Concrete.factoryConst "DB") true)
          "db" "database").1 [] "database"
      = Container.Make 5
          (Container.Alias (Container.Bind Container.empty "db" (Concrete.factoryConst "DB") true)
            "db" "database").1 [] "db" :=
  ⟨rfl, C5_alias_resolves_canonical 5 Container.empty (Concrete.factoryConst "DB") true [] rfl⟩

/-- C3: whenever resolution re-enters an abstract already on the current
build stack and construction would be required (there is a contextual
override, or a Binding that is not shared-with-cached — as in §4.2 a cached
shared instance is returned before any cycle check), `Make` returns
`CircularDependencyError` immediately, at every fuel, so it neither hangs nor
overflows; in particular a self-referential binding whose factory calls
`Make` on its own abstract fails that way at every sufficient fuel. -/
theorem C3_reentry_circular_error :
    (∀ (fuel : Nat) (c : Container) (stack : List String) (a : String) (b : Binding),
        Container.resolveAlias c a ∈ stack →
        Container.ctxConcrete c stack (Container.resolveAlias c a) = none →
        alookup (Container.resolveAlias c a) c.bindings = some b →
        (b.shared = true → b.resolvedInstance = none) →
        Container.Make (fuel + 1) c stack a
          = (c, .error (.circularDependency (Container.resolveAlias c a :: stack)))) ∧
    (∀ (fuel : Nat) (c : Container) (stack : List String) (a : String) (conc : Concrete),
        Container.resolveAlias c a ∈ stack →
        Container.ctxConcrete c stack (Container.resolveAlias c a) = some conc →
        Container.Make (fuel + 1) c stack a
          = (c, .error (.circularDependency (Container.resolveAlias c a :: stack)))) ∧
    (∀ fuel : Nat,
        Container.Make (fuel + 3)
            (Container.Singleton Container.empty "A" (Concrete.factoryMake "A")) [] "A"
          = (Container.Singleton Container.empty "A" (Concrete.factoryMake "A"),
              .error (.circularDependency ["A", "A"]))) := by
  refine ⟨make_reenter_binding, make_reenter_ctx, fun fuel => ?_⟩
  have hinner : Container.Make (fuel + 1)
      (Container.Singleton Container.empty "A" (Concrete.factoryMake "A")) ["A"] "A"
      = (Container.Singleton Container.empty "A" (Concrete.factoryMake "A"),
          .error (.circularDependency ["A", "A"])) :=
    make_reenter_binding fuel _ ["A"] "A" ⟨Concrete.factoryMake "A", true, none, []⟩
      (by decide) (by decide) (by decide) (fun _ => rfl)
  show Container.Make (fuel + 2 + 1) _ [] "A" = _
  simp only [Container.Make]
  rw [show Container.resolveAlias
        (Container.Singleton Container.empty "A" (Concrete.factoryMake "A")) "A" = "A" from rfl,
      show Container.ctxConcrete
        (Container.Singleton Container.empty "A" (Concrete.factoryMake "A")) [] "A" = none from rfl]
  dsimp only
  rw [show alookup "A"
        (Container.Singleton Container.empty "A" (Concrete.factoryMake "A")).bindings
        = some ⟨Concrete.factoryMake "A", true, none, []⟩ from by decide]
  dsimp only
  rw [if_neg (List.not_mem_nil "A")]
  simp only [Container.invoke]
  rw [hinner]

/-- Witness for C3 at a concrete re-entrant call: resolving `"A"` while
`"A"` is already on the build stack yields `CircularDependencyError`. -/
theorem C3_reentry_circular_error_witness :
    Container.Make 1 (Container.Bind Container.empty "A" (Concrete.factoryConst "X") false)
        ["A"] "A"
      = (Container.Bind Container.empty "A" (Concrete.factoryConst "X") false,
          .error (.circularDependency ["A", "A"])) :=
  C3_reentry_circular_error.1 0
    (Container.Bind Container.empty "A" (Concrete.factoryConst "X") false) ["A"] "A"
    ⟨Concrete.factoryConst "X", false, none, []⟩
    (by decide) (by decide) (by decide) (by decide)

/-- C7: dependency resolution for construction walks the declared list
strictly in order through `Make`; if every dependency before `d` resolves and
`d` fails, the whole resolution fails with the error tagged with the owning
abstract, the failing position `i + ds1.length` and the failing dependency's
name, the final container is the one reached at the failure, and the
dependencies after `d` are never resolved (the result does not depend on
`ds2`). -/
theorem C7_deps_in_order_shortcircuit (fuel fuel2 : Nat) (c c1 c2 : Container)
    (stack : List String) (owner d : String) (i : Nat) (ds1 ds2 : List String)
    (vs : List Value) (e : CErr)
    (h1 : Container.resolveDeps fuel c stack owner i ds1 = (c1, .ok vs))
    (hf : fuel - ds1.length = fuel2 + 1)
    (h2 : Container.Make fuel2 c1 stack d = (c2, .error e)) :
    Container.resolveDeps fuel c stack owner i (ds1 ++ d :: ds2)
      = (c2, .error (.construction owner (i + ds1.length) d e)) := by
  rw [resolveDeps_append (d :: ds2) ds1 fuel c c1 stack owner i vs h1, hf]
  simp only [Container.resolveDeps, h2]

/-- Witness for C7 at a concrete container: with `"A"` bound, `"B"` unbound
and `"C"` bound, resolving the list `["A", "B", "C"]` fails at position 1
with `"B"`'s error, and `"C"` is never resolved. -/
theorem C7_deps_in_order_shortcircuit_witness :
    Container.resolveDeps 5
        (Container.Bind (Container.Bind Container.empty "A" (Concrete.factoryConst "X") false)
          "C" (Concrete.factoryConst "Y") false) [] "S" 0 ["A", "B", "C"]
      = ({ Container.Bind (Container.Bind Container.empty "A" (Concrete.factoryConst "X") false)
            "C" (Concrete.factoryConst "Y") false with nextId := 1 },
          .error (.construction "S" 1 "B" (.unboundAbstract "B"))) :=
  C7_deps_in_order_shortcircuit 5 3
    (Container.Bind (Container.Bind Container.empty "A" (Concrete.factoryConst "X") false)
      "C" (Concrete.factoryConst "Y") false)
    { Container.Bind (Container.Bind Container.empty "A" (Concrete.factoryConst "X") false)
        "C" (Concrete.factoryConst "Y") false with nextId := 1 }
    { Container.Bind (Container.Bind Container.empty "A" (Concrete.factoryConst "X") false)
        "C" (Concrete.factoryConst "Y") false with nextId := 1 }
    [] "S" "B" 0 ["A"] ["C"] [⟨0, "X", []⟩]
    (.unboundAbstract "B") (by decide) (by decide) (by decide)

/-- C2 counterexample: an abstract bound with `shared = true` whose factory
fails (here, by resolving an unbound abstract) makes the first `Make` call
fail, so "two sequential calls to Make both succeed" is not true of every
shared binding. -/
theorem C2_shared_first_call_can_fail :
    (Container.Make 5 (Container.Singleton Container.empty "A" (Concrete.factoryMake "B"))
        [] "A").2
      = .error (.unboundAbstract "B") := by decide

/-- C2 amended: for every abstract `a` that is canonically bound with
`shared = true`, if one `Make` call succeeds with instance `v` and final
container `c2`, then every later `Make` call on `c2` — at any positive fuel,
in particular fuel 1, which cannot construct anything — returns the identical
`v` directly from the cached `resolvedInstance` and leaves the container
exactly `c2` (no factory invocation, no allocation). -/
theorem C2_shared_second_call_cached (fuel fuel2 : Nat) (c c2 : Container) (a : String)
    (b : Binding) (v : Value)
    (hal : alookup a c.aliases = none)
    (hb : alookup a c.bindings = some b)
    (hsh : b.shared = true)
    (h1 : Container.Make fuel c [] a = (c2, .ok v)) :
    Container.Make (fuel2 + 1) c2 [] a = (c2, .ok v) := by
  cases fuel with
  | zero => simp [Container.Make] at h1
  | succ fuel =>
    cases hres : b.resolvedInstance with
    | some w =>
      rw [Make_cached_top fuel c a b w hal hb hsh hres] at h1
      simp only [Prod.mk.injEq, Result.ok.injEq] at h1
      obtain ⟨hc, hv⟩ := h1
      subst hc
      subst hv
      exact Make_cached_top fuel2 c a b w hal hb hsh hres
    | none =>
      simp only [Container.Make, Container.resolveAlias, hal, Container.ctxConcrete,
        hb, hsh, hres] at h1
      rw [if_neg (List.not_mem_nil a)] at h1
      cases hInv : Container.invoke fuel c [a] b.concrete with
      | mk ci ri =>
        rw [hInv] at h1
        cases ri with
        | error e => simp at h1
        | ok w =>
          dsimp only at h1
          simp only [Prod.mk.injEq, Result.ok.injEq] at h1
          obtain ⟨hc, hv⟩ := h1
          subst hv
          have hP := (make_preserves fuel).2.1 c [a] b.concrete
          rw [hInv] at hP
          have hbi : alookup a ci.bindings = some b := by
            have hmem : a ∈ ([a] : List String) := by simp
            have := hP.2.2 a hmem
            rw [this, hb]
          have hai : ci.aliases = c.aliases := hP.1
          have hc2 : Container.cacheAt ci a w
              = { ci with bindings := aset a { b with resolvedInstance := some w } ci.bindings } := by
            simp [Container.cacheAt, hbi]
          rw [hc2] at hc
          subst hc
          apply Make_cached_top fuel2 _ a { b with resolvedInstance := some w } w
          · show alookup a ci.aliases = none
            rw [hai]
            exact hal
          · exact alookup_aset_self _ _ _
          · exact hsh
          · rfl

/-- Witness for C2 amended: a concrete shared binding, resolved once, is
served from the cache on the second call with the identical instance and an
unchanged container. -/
theorem C2_shared_second_call_cached_witness :
    Container.Make 1
        (Container.cacheAt
          { Container.Singleton Container.empty "A" (Concrete.factoryConst "X") with nextId := 1 }
          "A" ⟨0, "X", []⟩) [] "A"
      = (Container.cacheAt
          { Container.Singleton Container.empty "A" (Concrete.factoryConst "X") with nextId := 1 }
          "A" ⟨0, "X", []⟩, .ok ⟨0, "X", []⟩) :=
  C2_shared_second_call_cached 5 0
    (Container.Singleton Container.empty "A" (Concrete.factoryConst "X"))
    (Container.cacheAt
      { Container.Singleton Container.empty "A" (Concrete.factoryConst "X") with nextId := 1 }
      "A" ⟨0, "X", []⟩)
    "A" ⟨Concrete.factoryConst "X", true, none, []⟩ ⟨0, "X", []⟩
    (by decide) (by decide) (by decide) (by decide)

/-- C1 counterexample: the two `DeletedAt` definitions are not extensionally
equivalent — `Scan` on a value that is neither nil, `time.Time` nor string
(modelled by `SqlValue.otherVal`) resets the receiver to the zero invalid
state in `src/database.go` but leaves the receiver unchanged in
`src/database/database.go`, so on a valid receiver the final states differ. -/
theorem C1_two_deletedAt_not_equivalent :
    DatabaseRoot.DeletedAt.Scan ⟨⟨2023, 1, 2, 3, 4, 5⟩, true⟩ SqlValue.otherVal
      ≠ DatabasePkg.DeletedAt.Scan ⟨⟨2023, 1, 2, 3, 4, 5⟩, true⟩ SqlValue.otherVal := by
  decide

/-- C1 amended: the two `DeletedAt` definitions agree on `Value` and
`MarshalJSON` for every receiver, on `Scan` for nil and `time.Time` inputs,
and on `UnmarshalJSON` for `null` and for successfully parsed inputs; they
are not extensionally equivalent, disagreeing on `Scan` for string inputs
(`src/database.go` parses layout `2006-01-02 15:04:05`,
`src/database/database.go` parses RFC3339) and for inputs of any other
dynamic type (reset to zero/invalid versus receiver unchanged), and on
`UnmarshalJSON` for failing inputs (`src/database.go` leaves the receiver
unchanged, `src/database/database.go` clears `Valid`). -/
theorem C1_deletedAt_partial_equivalence :
    (∀ dt : DeletedAt, DatabaseRoot.DeletedAt.Value dt = DatabasePkg.DeletedAt.Value dt) ∧
    (∀ dt : DeletedAt,
        DatabaseRoot.DeletedAt.MarshalJSON dt = DatabasePkg.DeletedAt.MarshalJSON dt) ∧
    (∀ dt : DeletedAt,
        DatabaseRoot.DeletedAt.Scan dt SqlValue.null
          = DatabasePkg.DeletedAt.Scan dt SqlValue.null) ∧
    (∀ (dt : DeletedAt) (t : GoTime),
        DatabaseRoot.DeletedAt.Scan dt (SqlValue.timeVal t)
          = DatabasePkg.DeletedAt.Scan dt (SqlValue.timeVal t)) ∧
    (∀ (dt : DeletedAt) (data : String),
        data = "null" ∨ (unmarshalTimeJSON data).isSome = true →
        DatabaseRoot.DeletedAt.UnmarshalJSON dt data
          = DatabasePkg.DeletedAt.UnmarshalJSON dt data) ∧
    (∃ (dt : DeletedAt) (s : String),
        DatabaseRoot.DeletedAt.Scan dt (SqlValue.strVal s)
          ≠ DatabasePkg.DeletedAt.Scan dt (SqlValue.strVal s)) ∧
    (∃ (dt : DeletedAt) (data : String),
        DatabaseRoot.DeletedAt.UnmarshalJSON dt data
          ≠ DatabasePkg.DeletedAt.UnmarshalJSON dt data) := by
  refine ⟨fun dt => rfl, fun dt => rfl, fun dt => rfl, fun dt t => rfl,
    ?_, ⟨⟨GoTime.zero, true⟩, "2023-01-02 03:04:05", by decide⟩,
    ⟨⟨GoTime.zero, true⟩, "bad", by decide⟩⟩
  intro dt data h
  by_cases hnull : data = "null"
  · simp [DatabaseRoot.DeletedAt.UnmarshalJSON, DatabasePkg.DeletedAt.UnmarshalJSON, hnull]
  · cases h with
    | inl h => exact absurd h hnull
    | inr h =>
      obtain ⟨t, ht⟩ := Option.isSome_iff_exists.mp h
      simp [DatabaseRoot.DeletedAt.UnmarshalJSON, DatabasePkg.DeletedAt.UnmarshalJSON,
        hnull, ht]

/-- Witness for C1 amended: the two `UnmarshalJSON` definitions agree on the
`null` input. -/
theorem C1_deletedAt_partial_equivalence_witness :
    DatabaseRoot.DeletedAt.UnmarshalJSON ⟨GoTime.zero, true⟩ "null"
      = DatabasePkg.DeletedAt.UnmarshalJSON ⟨GoTime.zero, true⟩ "null" :=
  C1_deletedAt_partial_equivalence.2.2.2.2.1 ⟨GoTime.zero, true⟩ "null" (Or.inl rfl)

/-- C10: for every `DeletedAt` of `src/database.go` whose `MarshalJSON`
succeeds (with the Go invariant on the clock fields), unmarshalling the
marshalled bytes into any receiver succeeds and yields a value whose `Valid`
equals the original's and, when valid, whose `Time` is the same instant; in
particular an invalid value marshals to the literal `null` and unmarshals
back to an invalid value. -/
theorem C10_roundtrip (dt dtInit : DeletedAt) (s : String)
    (hwf : dt.Valid = true → dt.Time.WF)
    (h : DatabaseRoot.DeletedAt.MarshalJSON dt = .ok s) :
    (dt.Valid = false → s = "null") ∧
    ∃ dt2 : DeletedAt, DatabaseRoot.DeletedAt.UnmarshalJSON dtInit s = (dt2, none) ∧
      dt2.Valid = dt.Valid ∧ (dt.Valid = true → dt2.Time = dt.Time) := by
  cases hv : dt.Valid with
  | false =>
    have hmar : DatabaseRoot.DeletedAt.MarshalJSON dt = Result.ok "null" := by
      simp [DatabaseRoot.DeletedAt.MarshalJSON, hv]
    rw [hmar, Result.ok.injEq] at h
    subst h
    refine ⟨fun _ => rfl, ⟨{ dtInit with Valid := false }, ?_, rfl,
      fun ht => absurd ht (by decide)⟩⟩
    simp [DatabaseRoot.DeletedAt.UnmarshalJSON]
  | true =>
    obtain ⟨hm1, hm2, hd1, hd2, hh, hmi, hsec⟩ := hwf hv
    by_cases hy : dt.Time.year < 10000
    · have hmar : DatabaseRoot.DeletedAt.MarshalJSON dt
          = Result.ok (String.mk ('"' :: fmtRFC3339 dt.Time ++ ['"'])) := by
        simp [DatabaseRoot.DeletedAt.MarshalJSON, hv, marshalTimeJSON, hy]
      rw [hmar, Result.ok.injEq] at h
      subst h
      simp only [List.cons_append]
      have hne : String.mk ('"' :: (fmtRFC3339 dt.Time ++ ['"'])) ≠ "null" := by
        intro hEq
        have hdata : '"' :: (fmtRFC3339 dt.Time ++ ['"']) = "null".data :=
          congrArg String.data hEq
        have hnull : "null".data = ['n', 'u', 'l', 'l'] := rfl
        rw [hnull] at hdata
        simp only [List.cons.injEq] at hdata
        exact absurd hdata.1 (by decide)
      have hparse := unmarshalTimeJSON_mk (fmtRFC3339 dt.Time ++ ['"'])
      rw [parseRFC3339Core_fmt dt.Time ['"'] hy (by omega) (by omega) (by omega)
        (by omega) (by omega)] at hparse
      refine ⟨fun hf => absurd hf (by decide), ⟨⟨dt.Time, true⟩, ?_, rfl, fun _ => rfl⟩⟩
      unfold DatabaseRoot.DeletedAt.UnmarshalJSON
      rw [if_neg hne, hparse]
      rfl
    · exfalso
      have hmar : DatabaseRoot.DeletedAt.MarshalJSON dt
          = Result.error GoErr.yearOutOfRange := by
        simp [DatabaseRoot.DeletedAt.MarshalJSON, hv, marshalTimeJSON, hy]
      rw [hmar] at h
      simp at h

/-- Witness for C10 at a concrete valid timestamp: it marshals to a quoted
RFC3339 string and unmarshals back to the same instant. -/
theorem C10_roundtrip_witness :
    ((⟨⟨2023, 1, 2, 3, 4, 5⟩, true⟩ : DeletedAt).Valid = false →
        "\"2023-01-02T03:04:05Z\"" = "null") ∧
    ∃ dt2 : DeletedAt,
      DatabaseRoot.DeletedAt.UnmarshalJSON ⟨GoTime.zero, false⟩ "\"2023-01-02T03:04:05Z\""
          = (dt2, none) ∧
        dt2.Valid = (⟨⟨2023, 1, 2, 3, 4, 5⟩, true⟩ : DeletedAt).Valid ∧
        ((⟨⟨2023, 1, 2, 3, 4, 5⟩, true⟩ : DeletedAt).Valid = true →
          dt2.Time = (⟨⟨2023, 1, 2, 3, 4, 5⟩, true⟩ : DeletedAt).Time) :=
  C10_roundtrip ⟨⟨2023, 1, 2, 3, 4, 5⟩, true⟩ ⟨GoTime.zero, false⟩
    "\"2023-01-02T03:04:05Z\"" (fun _ => by decide) (by decide)

end LaravelDoc
